import Mathlib

/-!
Verification of `deep-search-persona`: a shallow embedding of
`src/workflow/state_machine.py` (the adaptive research state machine) and
`src/testing/ab_testing.py` (the A/B testing framework), with theorems
settling the specification claims about them.

Python floats are embedded as rationals (`ℚ`); Python ints as `ℤ`;
dictionaries with a fixed key set as structures of `Option` fields
(`none` models an absent key, and `Option.getD` models `dict.get(k, default)`).
-/

namespace DeepSearch

/-- The `WorkflowState` enum of `src/workflow/state_machine.py`. -/
inductive WorkflowState where
  | PLANNING
  | SEARCHING
  | ANALYZING
  | VALIDATING
  | REFINING
  | SYNTHESIZING
  | COMPLETED
  | FAILED
deriving DecidableEq, Repr

/-- The `.value` string of each `WorkflowState` member. -/
def WorkflowState.value : WorkflowState → String
  | .PLANNING => "planning"
  | .SEARCHING => "searching"
  | .ANALYZING => "analyzing"
  | .VALIDATING => "validating"
  | .REFINING => "refining"
  | .SYNTHESIZING => "synthesizing"
  | .COMPLETED => "completed"
  | .FAILED => "failed"

/-- The context dictionary passed to `next_state`.  Every key the transition
functions read is a field; `none` models an absent key.  The `timestamp`
and free-form metadata keys are not read by any transition function and
are omitted. -/
structure Ctx where
  confidence : Option ℚ := none
  contradictions : Option ℤ := none
  coverage : Option ℚ := none
  results_found : Option ℤ := none
  validation_passed : Option Bool := none
  iterations_without_progress : Option ℤ := none
  synthesis_quality : Option ℚ := none
deriving DecidableEq, Repr

/-- The empty context `{}` (every key absent). -/
def Ctx.empty : Ctx := {}

/-- The `StateTransition` dataclass.  The `timestamp` field (wall-clock
time, set in `__post_init__`) is not modelled; no claim reads it. -/
structure StateTransition where
  from_state : WorkflowState
  to_state : WorkflowState
  condition : String
  reason : String
deriving DecidableEq, Repr

/-- The mutable state of a `ResearchStateMachine`: its `current_state` and
`state_history`.  The `transition_rules` dictionary built by
`_init_transition_rules` is never consulted by `next_state` (dead data),
and the `context` attribute is only ever written, so neither is modelled. -/
structure Machine where
  current_state : WorkflowState
  state_history : List StateTransition
deriving DecidableEq, Repr

/-- `ResearchStateMachine.__init__`: start in PLANNING with empty history. -/
def Machine.init : Machine :=
  { current_state := .PLANNING, state_history := [] }

/-- `_transition_to`: append a transition record and move to the new state. -/
def transition_to (m : Machine) (new_state : WorkflowState) (reason : String) :
    Machine :=
  { current_state := new_state,
    state_history := m.state_history ++
      [{ from_state := m.current_state, to_state := new_state,
         condition := reason, reason := reason }] }

/-- `_should_validate`: validation is triggered when results exist, the
machine is not already validating, and contradictions exceed 2 or
confidence falls below 0.5. -/
def should_validate (cur : WorkflowState) (ctx : Ctx) : Bool :=
  if ctx.results_found.getD 0 = 0 then false
  else if cur = .VALIDATING then false
  else ctx.contradictions.getD 0 > 2 || ctx.confidence.getD 1 < mkRat 1 2

/-- `_is_stuck`: stagnation is detected outside REFINING when
`iterations_without_progress` exceeds 2. -/
def is_stuck (cur : WorkflowState) (ctx : Ctx) : Bool :=
  if cur = .REFINING then false
  else ctx.iterations_without_progress.getD 0 > 2

/-- `_can_complete`: completion requires high confidence and coverage, zero
contradictions, and the SYNTHESIZING state. -/
def can_complete (cur : WorkflowState) (ctx : Ctx) : Bool :=
  ctx.confidence.getD 0 > mkRat 4 5 &&
  ctx.coverage.getD 0 > mkRat 3 4 &&
  ctx.contradictions.getD 99 = 0 &&
  cur = .SYNTHESIZING

/-- `_next_from_planning`. -/
def next_from_planning (m : Machine) (_ctx : Ctx) : Machine :=
  transition_to m .SEARCHING "plan_complete"

/-- `_next_from_searching`. -/
def next_from_searching (m : Machine) (ctx : Ctx) : Machine :=
  if ctx.results_found.getD 0 = 0 then
    transition_to m .REFINING "no_results"
  else
    transition_to m .ANALYZING "results_found"

/-- `_next_from_analyzing`.  The local variable
`confidence = ctx.get("confidence", 0.5)` is inlined. -/
def next_from_analyzing (m : Machine) (ctx : Ctx) : Machine :=
  if ctx.confidence.getD (mkRat 1 2) < mkRat 3 5 then
    transition_to m .SEARCHING "low_confidence"
  else if ctx.contradictions.getD 0 > 2 then
    transition_to m .VALIDATING "contradictions_found"
  else if ctx.coverage.getD 0 > mkRat 7 10 then
    transition_to m .SYNTHESIZING "sufficient_coverage"
  else
    transition_to m .SEARCHING "coverage_incomplete"

/-- `_next_from_validating`. -/
def next_from_validating (m : Machine) (ctx : Ctx) : Machine :=
  if ctx.validation_passed.getD false then
    transition_to m .SYNTHESIZING "validation_passed"
  else
    transition_to m .REFINING "validation_failed"

/-- `_next_from_refining`. -/
def next_from_refining (m : Machine) (ctx : Ctx) : Machine :=
  if ctx.iterations_without_progress.getD 0 > 2 then
    transition_to m .SYNTHESIZING "forcing_synthesis_stuck_in_loop"
  else if ctx.coverage.getD 0 > mkRat 7 10 && ctx.results_found.getD 0 > 0 then
    transition_to m .SYNTHESIZING "sufficient_results_for_synthesis"
  else
    transition_to m .SEARCHING "strategy_refined"

/-- `_next_from_synthesizing`.  The local variable
`quality = ctx.get("synthesis_quality", 0.5)` is inlined. -/
def next_from_synthesizing (m : Machine) (ctx : Ctx) : Machine :=
  if ctx.synthesis_quality.getD (mkRat 1 2) > mkRat 4 5 then
    transition_to m .COMPLETED "high_quality_synthesis"
  else
    transition_to m .ANALYZING "synthesis_needs_improvement"

/-- `next_state`: the priority rules (`_should_validate`, `_is_stuck`,
`_can_complete`) are checked first, in that order; otherwise the per-state
default function runs; COMPLETED and FAILED have no entry in
`next_state_map`, so the current state is returned without a transition. -/
def next_state (m : Machine) (ctx : Ctx) : Machine :=
  if should_validate m.current_state ctx then
    transition_to m .VALIDATING "contradictions_detected"
  else if is_stuck m.current_state ctx then
    transition_to m .REFINING "stuck_in_loop"
  else if can_complete m.current_state ctx then
    transition_to m .COMPLETED "objectives_met"
  else
    match m.current_state with
    | .PLANNING => next_from_planning m ctx
    | .SEARCHING => next_from_searching m ctx
    | .ANALYZING => next_from_analyzing m ctx
    | .VALIDATING => next_from_validating m ctx
    | .REFINING => next_from_refining m ctx
    | .SYNTHESIZING => next_from_synthesizing m ctx
    | .COMPLETED => m
    | .FAILED => m

/-- `get_state_path`: the current state followed by the destination of every
recorded transition. -/
def get_state_path (m : Machine) : List String :=
  [m.current_state.value] ++ m.state_history.map (fun t => t.to_state.value)

/-- `can_backtrack`. -/
def can_backtrack (m : Machine) : Bool :=
  m.state_history.length > 0

/-- `backtrack`: pop `steps` transitions from the end of the history and
restore the destination of the last remaining one (or PLANNING).  A call
with `steps` larger than the history, or on an empty history, is a no-op. -/
def backtrack (m : Machine) (steps : ℕ) : Machine :=
  if ¬ can_backtrack m ∨ steps > m.state_history.length then m
  else
    let h := m.state_history.take (m.state_history.length - steps)
    match h.getLast? with
    | some t => { current_state := t.to_state, state_history := h }
    | none => { current_state := .PLANNING, state_history := h }

/-! ### Driver operations on the state machine -/

/-- One public operation on a `ResearchStateMachine`. -/
inductive Op where
  | advance (ctx : Ctx)
  | back (steps : ℕ)

/-- Apply one operation. -/
def apply_op (m : Machine) : Op → Machine
  | .advance ctx => next_state m ctx
  | .back steps => backtrack m steps

/-- The machine obtained by running a sequence of operations from a fresh
`ResearchStateMachine()`. -/
def run (ops : List Op) : Machine :=
  ops.foldl apply_op Machine.init

/-- The destination of the last recorded transition, or PLANNING when the
history is empty. -/
def last_to_state (m : Machine) : WorkflowState :=
  match m.state_history.getLast? with
  | some t => t.to_state
  | none => .PLANNING

/-- The history/current-state consistency invariant. -/
def Inv (m : Machine) : Prop :=
  m.current_state = last_to_state m

/-! ### Concrete inputs used by counterexamples and witnesses -/

/-- A context reporting one result and three contradictions (it triggers
`_should_validate` from any state other than VALIDATING). -/
def ctx_escalate : Ctx :=
  { results_found := some 1, contradictions := some 3 }

/-- A context reporting three stagnant iterations together with one result
and three contradictions. -/
def ctx_stuck_contra : Ctx :=
  { iterations_without_progress := some 3, results_found := some 1,
    contradictions := some 3 }

/-- A context reporting only three stagnant iterations. -/
def ctx_stuck_only : Ctx :=
  { iterations_without_progress := some 3 }

/-- A fresh machine advanced once with the empty context (lands in
SEARCHING). -/
def m_searching : Machine :=
  next_state Machine.init Ctx.empty

/-- A fresh machine advanced twice with the empty context (lands in
REFINING via "no_results"). -/
def m_refining : Machine :=
  next_state (next_state Machine.init Ctx.empty) Ctx.empty

/-- A machine driven to COMPLETED through the public interface:
PLANNING → SEARCHING → ANALYZING → SYNTHESIZING → COMPLETED. -/
def m_completed : Machine :=
  next_state
    (next_state
      (next_state (next_state Machine.init Ctx.empty) { results_found := some 1 })
      { confidence := some (mkRat 9 10), coverage := some (mkRat 4 5), results_found := some 1 })
    { synthesis_quality := some (mkRat 9 10) }

/-! ### The A/B testing framework (`src/testing/ab_testing.py`) -/

/-- The `Variant` enum. -/
inductive Variant where
  | A
  | B
  | CONTROL
deriving DecidableEq, Repr

/-- The `TestResult` dataclass.  The wall-clock `timestamp` and the free-form
`metadata` dictionary are not modelled; no claim reads them. -/
structure TestResult where
  variant : Variant
  metric_name : String
  metric_value : ℚ
deriving DecidableEq, Repr

/-- The mutable state of an `ABTest`.  The configuration values of the
`variants` dictionary are never read, so only its keys are kept (in
insertion order); `variant_stats` is the dictionary mapping each variant
name to its list of recorded metric values, modelled as an association
list in insertion order. -/
structure ABTest where
  name : String
  metric : String
  variants : List String
  results : List TestResult
  variant_stats : List (String × List ℚ)
deriving DecidableEq, Repr

/-- `ABTest.__init__`: empty results, one empty stats list per variant. -/
def ABTest.make (name metric : String) (variants : List String) : ABTest :=
  { name := name, metric := metric, variants := variants,
    results := [],
    variant_stats := variants.map fun v => (v, []) }

/-- `variant_stats[variant].append(value)`: extend the value list of the
given key, leaving every other entry alone. -/
def append_at (v : String) (x : ℚ) (l : List (String × List ℚ)) :
    List (String × List ℚ) :=
  l.map fun p => if p.1 = v then (p.1, p.2 ++ [x]) else p

/-- `ABTest.record_result`.  The `TestResult` is appended to `results`
first; then `variant_stats[variant]` is extended.  When `variant` is not a
key of `variant_stats`, that second step raises `KeyError`: the returned
flag is `true` and, since `results` was already mutated, the error state
keeps the appended result while `variant_stats` is unchanged. -/
def record_result (t : ABTest) (variant : String) (metric_value : ℚ) :
    ABTest × Bool :=
  let r : TestResult :=
    { variant := if variant = "A" then .A else if variant = "B" then .B else .CONTROL,
      metric_name := t.metric, metric_value := metric_value }
  let t1 := { t with results := t.results ++ [r] }
  if (t1.variant_stats.lookup variant).isSome then
    ({ t1 with variant_stats := append_at variant metric_value t1.variant_stats }, false)
  else
    (t1, true)

/-- The per-variant statistics record built by `get_winner`.  The `std`
entry (a floating-point square root) is not modelled: no modelled claim and
no later step of `get_winner` reads it. -/
structure VariantStats where
  mean : ℚ
  count : ℕ
deriving DecidableEq, Repr

/-- `sum(values) / len(values)`. -/
def list_mean (values : List ℚ) : ℚ :=
  values.sum / values.length

/-- The `stats` dictionary of `get_winner`: variants with no recorded
values are skipped. -/
def compute_stats (vs : List (String × List ℚ)) : List (String × VariantStats) :=
  vs.filterMap fun p =>
    if p.2.isEmpty then none
    else some (p.1, { mean := list_mean p.2, count := p.2.length })

/-- `max(stats.items(), key=lambda x: x[1]["mean"])`: the first entry with
the maximal mean (Python's `max` keeps the earlier of two ties), or `none`
on an empty dictionary (where Python's `max` raises `ValueError`). -/
def best_variant : List (String × VariantStats) → Option (String × VariantStats)
  | [] => none
  | x :: xs => some (xs.foldl (fun best y => if y.2.mean > best.2.mean then y else best) x)

/-- `ABTest._calculate_confidence`.  `none` models the `KeyError` raised
when `winner` is not a key of `stats` (unreachable from `get_winner`). -/
def calculate_confidence (winner : String)
    (stats : List (String × VariantStats)) : Option ℚ :=
  (stats.lookup winner).map fun ws =>
    let margins := stats.filterMap fun p =>
      if p.1 = winner then none
      else some ((ws.mean - p.2.mean) / max ws.mean (1/100))
    if margins.isEmpty then 1/2
    else min (19/20) (1/2 + margins.sum / margins.length)

/-- The outcome of `ABTest.get_winner`: the insufficient-data dictionary,
the winner dictionary (its `all_stats` entry is `compute_stats` of the
current `variant_stats` and is not repeated here), or an uncaught
exception. -/
inductive WinnerResult where
  | insufficient (reason : String)
  | declared (winner : String) (mean : ℚ) (confidence : ℚ)
  | raised (message : String)
deriving DecidableEq, Repr

/-- `ABTest.get_winner`. -/
def get_winner (t : ABTest) (min_samples : ℕ) : WinnerResult :=
  if t.results.length < min_samples then
    .insufficient ("Insufficient data (need " ++ toString min_samples ++
      " samples, have " ++ toString t.results.length ++ ")")
  else
    let stats := compute_stats t.variant_stats
    match best_variant stats with
    | none => .raised "max() arg is an empty sequence"
    | some best =>
      match calculate_confidence best.1 stats with
      | none => .raised "KeyError"
      | some c => .declared best.1 best.2.mean c

/-- Total number of values stored across `variant_stats`. -/
def stats_total (vs : List (String × List ℚ)) : ℕ :=
  (vs.map fun p => p.2.length).sum

/-- Tests reachable through the public interface: constructed with a
duplicate-free variant dictionary and mutated only by `record_result`
calls on registered variants (calls that do not raise `KeyError`). -/
inductive Reachable : ABTest → Prop where
  | make (name metric : String) (variants : List String) (h : variants.Nodup) :
      Reachable (ABTest.make name metric variants)
  | step (t : ABTest) (v : String) (x : ℚ) (ht : Reachable t)
      (hv : v ∈ t.variants) : Reachable (record_result t v x).1

/-- Modelled from the claim wording for the winner confidence (`the
average, over all non-winning variants with data, of
(winner_mean - other_mean) / max(winner_mean, 0.01), clamped to
[0.5, 0.95]`); to be compared with `calculate_confidence`. -/
def claimed_confidence (winner_mean : ℚ) (other_means : List ℚ) : ℚ :=
  if other_means.isEmpty then 1/2
  else
    let margins := other_means.map fun m => (winner_mean - m) / max winner_mean (1/100)
    max (1/2) (min (19/20) (margins.sum / margins.length))

/-- A two-variant test: one value 1.0 for "A", one value 0.8 for "B". -/
def sample_test : ABTest :=
  (record_result (record_result (ABTest.make "t" "confidence" ["A", "B"]) "A" 1).1
    "B" (mkRat 4 5)).1

/-- A one-variant test holding a single recorded value. -/
def single_test : ABTest :=
  (record_result (ABTest.make "t" "confidence" ["A"]) "A" 1).1

/-! ### Basic shape lemmas for the state machine -/

/-- `_transition_to` appends exactly one record whose `to_state` is the new
current state. -/
theorem transition_to_shape (m : Machine) (s : WorkflowState) (r : String) :
    transition_to m s r = m ∨
    ∃ t : StateTransition,
      transition_to m s r =
        { current_state := t.to_state, state_history := m.state_history ++ [t] } :=
  Or.inr ⟨{ from_state := m.current_state, to_state := s, condition := r, reason := r }, rfl⟩

/-- `next_state` either leaves the machine unchanged or appends exactly one
transition whose `to_state` is the new current state. -/
theorem next_state_shape (m : Machine) (ctx : Ctx) :
    next_state m ctx = m ∨
    ∃ t : StateTransition,
      next_state m ctx =
        { current_state := t.to_state, state_history := m.state_history ++ [t] } := by
  unfold next_state next_from_planning next_from_searching next_from_analyzing
    next_from_validating next_from_refining next_from_synthesizing
  repeat' split
  all_goals first
    | exact Or.inl rfl
    | exact transition_to_shape _ _ _

/-- The new current state after `next_state` does not depend on the history. -/
theorem next_state_current_eq (m : Machine) (ctx : Ctx) :
    (next_state m ctx).current_state =
      (next_state { current_state := m.current_state, state_history := [] } ctx).current_state := by
  rcases m with ⟨cur, hist⟩
  cases cur <;>
    (unfold next_state next_from_planning next_from_searching next_from_analyzing
      next_from_validating next_from_refining next_from_synthesizing
     dsimp only
     repeat' split) <;>
    rfl

/-! ### Claim C1 -/

/-- C1 (counterexample): COMPLETED is reachable through the public
interface, yet `next_state` in COMPLETED with a context reporting one
result and three contradictions commits a transition to VALIDATING, so the
claim that no rule produces an outgoing transition from a terminal state is
false. -/
theorem C1_counterexample :
    m_completed.current_state = WorkflowState.COMPLETED ∧
    (next_state m_completed ctx_escalate).current_state = WorkflowState.VALIDATING ∧
    (next_state m_completed ctx_escalate).state_history ≠ m_completed.state_history := by
  decide

/-- C1 (amended): from COMPLETED or FAILED, whenever neither the
contradiction-escalation rule (`_should_validate`) nor the stagnation rule
(`_is_stuck`) fires, `next_state` is a no-op: it commits no transition and
leaves the machine unchanged (`_can_complete` can never fire there since it
requires SYNTHESIZING). -/
theorem C1_terminal_no_op (m : Machine) (ctx : Ctx)
    (hterm : m.current_state = WorkflowState.COMPLETED ∨
      m.current_state = WorkflowState.FAILED)
    (hval : should_validate m.current_state ctx = false)
    (hstuck : is_stuck m.current_state ctx = false) :
    next_state m ctx = m := by
  rcases m with ⟨cur, hist⟩
  dsimp only at hterm hval hstuck
  rcases hterm with h | h <;> subst h <;>
    simp [next_state, hval, hstuck, can_complete]

/-- C1 witness: a machine in COMPLETED fed the empty context. -/
theorem C1_terminal_no_op_witness :
    next_state { current_state := WorkflowState.COMPLETED, state_history := [] }
      Ctx.empty =
      { current_state := WorkflowState.COMPLETED, state_history := [] } :=
  C1_terminal_no_op _ _ (Or.inl rfl) (by decide) (by decide)

/-! ### Claim C2 -/

/-- C2 (code bug, evaluated): after one `next_state` call from a fresh
machine, `get_state_path` returns ["searching", "searching"] (the current
state is prepended, duplicating the final state), while replaying the
history from PLANNING gives the traversed path ["planning", "searching"];
the two disagree, so the round-trip the claim states fails. -/
theorem C2_state_path_eval :
    get_state_path (next_state Machine.init Ctx.empty) = ["searching", "searching"] ∧
    WorkflowState.PLANNING.value ::
        (next_state Machine.init Ctx.empty).state_history.map
          (fun t => t.to_state.value) =
      ["planning", "searching"] ∧
    get_state_path (next_state Machine.init Ctx.empty) ≠
      WorkflowState.PLANNING.value ::
        (next_state Machine.init Ctx.empty).state_history.map
          (fun t => t.to_state.value) := by
  decide

/-! ### Claim C3 -/

/-- C3 (counterexample): in REFINING with `iterations_without_progress = 3`
but also one result and three contradictions, `next_state` goes to
VALIDATING (contradiction escalation outranks the exit valve), not to
SYNTHESIZING, so "regardless of the other context values" is false. -/
theorem C3_counterexample :
    m_refining.current_state = WorkflowState.REFINING ∧
    ctx_stuck_contra.iterations_without_progress.getD 0 > 2 ∧
    (next_state m_refining ctx_stuck_contra).current_state =
      WorkflowState.VALIDATING ∧
    (next_state m_refining ctx_stuck_contra).current_state ≠
      WorkflowState.SYNTHESIZING := by
  decide

/-- C3 (amended): in REFINING with `iterations_without_progress > 2`,
provided the contradiction-escalation rule does not fire (no results yet,
or at most 2 contradictions and confidence at least 0.5), `next_state`
returns SYNTHESIZING with reason "forcing_synthesis_stuck_in_loop",
regardless of coverage and of the remaining context values. -/
theorem C3_refining_exit (m : Machine) (ctx : Ctx)
    (hcur : m.current_state = WorkflowState.REFINING)
    (hiter : ctx.iterations_without_progress.getD 0 > 2)
    (hnoesc : ctx.results_found.getD 0 = 0 ∨
      (ctx.contradictions.getD 0 ≤ 2 ∧ ctx.confidence.getD 1 ≥ mkRat 1 2)) :
    (next_state m ctx).current_state = WorkflowState.SYNTHESIZING ∧
    (next_state m ctx).state_history = m.state_history ++
      [{ from_state := WorkflowState.REFINING, to_state := WorkflowState.SYNTHESIZING,
         condition := "forcing_synthesis_stuck_in_loop",
         reason := "forcing_synthesis_stuck_in_loop" }] := by
  rcases m with ⟨cur, hist⟩
  dsimp only at hcur ⊢
  subst hcur
  have hsv : should_validate WorkflowState.REFINING ctx = false := by
    rcases hnoesc with h | ⟨h1, h2⟩
    · simp [should_validate, h]
    · have h1' : ¬ (ctx.contradictions.getD 0 > 2) := not_lt.mpr h1
      have h2' : ¬ (ctx.confidence.getD 1 < mkRat 1 2) := not_lt.mpr h2
      simp [should_validate, h1', h2']
  simp [next_state, hsv, is_stuck, can_complete, next_from_refining, hiter,
    transition_to]

/-- C3 witness: the reachable REFINING machine fed a context with three
stagnant iterations and no results. -/
theorem C3_refining_exit_witness :
    (next_state m_refining ctx_stuck_only).current_state =
      WorkflowState.SYNTHESIZING ∧
    (next_state m_refining ctx_stuck_only).state_history =
      m_refining.state_history ++
      [{ from_state := WorkflowState.REFINING, to_state := WorkflowState.SYNTHESIZING,
         condition := "forcing_synthesis_stuck_in_loop",
         reason := "forcing_synthesis_stuck_in_loop" }] :=
  C3_refining_exit m_refining ctx_stuck_only (by decide) (by decide)
    (Or.inl (by decide))

/-! ### Claim C4 -/

/-- C4 (confirmed): from any non-terminal state other than VALIDATING, a
context with `results_found > 0` and (`contradictions > 2` or
`confidence < 0.5`) makes `next_state` transition to VALIDATING with
reason "contradictions_detected"; the rule is checked before every other
one, so it holds for every such context regardless of coverage, stagnation
or completion conditions. -/
theorem C4_contradiction_escalation (m : Machine) (ctx : Ctx)
    (hnv : m.current_state ≠ WorkflowState.VALIDATING)
    (hnc : m.current_state ≠ WorkflowState.COMPLETED)
    (hnf : m.current_state ≠ WorkflowState.FAILED)
    (hres : ctx.results_found.getD 0 > 0)
    (hesc : ctx.contradictions.getD 0 > 2 ∨ ctx.confidence.getD 1 < mkRat 1 2) :
    (next_state m ctx).current_state = WorkflowState.VALIDATING ∧
    (next_state m ctx).state_history = m.state_history ++
      [{ from_state := m.current_state, to_state := WorkflowState.VALIDATING,
         condition := "contradictions_detected",
         reason := "contradictions_detected" }] := by
  have h0 : ¬ (ctx.results_found.getD 0 = 0) := by omega
  have hsv : should_validate m.current_state ctx = true := by
    rcases hesc with h | h <;> simp [should_validate, h0, hnv, h]
  simp [next_state, hsv, transition_to]

/-- C4 witness: the reachable SEARCHING machine fed one result and three
contradictions. -/
theorem C4_contradiction_escalation_witness :
    (next_state m_searching ctx_escalate).current_state =
      WorkflowState.VALIDATING ∧
    (next_state m_searching ctx_escalate).state_history =
      m_searching.state_history ++
      [{ from_state := m_searching.current_state, to_state := WorkflowState.VALIDATING,
         condition := "contradictions_detected",
         reason := "contradictions_detected" }] :=
  C4_contradiction_escalation m_searching ctx_escalate (by decide) (by decide)
    (by decide) (by decide) (Or.inl (by decide))

/-! ### Claim C5 -/

/-- C5 (counterexample): a fresh machine starts in PLANNING, but a first
context with one result and three contradictions sends it to VALIDATING,
not SEARCHING, so "for every context" is false. -/
theorem C5_counterexample :
    Machine.init.current_state = WorkflowState.PLANNING ∧
    (next_state Machine.init ctx_escalate).current_state =
      WorkflowState.VALIDATING ∧
    (next_state Machine.init ctx_escalate).current_state ≠
      WorkflowState.SEARCHING := by
  decide

/-- C5 (amended): a fresh machine starts in PLANNING, and from PLANNING
`next_state` returns SEARCHING (reason "plan_complete") for every context
that triggers neither contradiction escalation nor stagnation. -/
theorem C5_planning_to_searching (m : Machine) (ctx : Ctx)
    (hcur : m.current_state = WorkflowState.PLANNING)
    (hnoesc : ctx.results_found.getD 0 = 0 ∨
      (ctx.contradictions.getD 0 ≤ 2 ∧ ctx.confidence.getD 1 ≥ mkRat 1 2))
    (hnostuck : ctx.iterations_without_progress.getD 0 ≤ 2) :
    Machine.init.current_state = WorkflowState.PLANNING ∧
    (next_state m ctx).current_state = WorkflowState.SEARCHING ∧
    (next_state m ctx).state_history = m.state_history ++
      [{ from_state := WorkflowState.PLANNING, to_state := WorkflowState.SEARCHING,
         condition := "plan_complete", reason := "plan_complete" }] := by
  rcases m with ⟨cur, hist⟩
  dsimp only at hcur ⊢
  subst hcur
  have hsv : should_validate WorkflowState.PLANNING ctx = false := by
    rcases hnoesc with h | ⟨h1, h2⟩
    · simp [should_validate, h]
    · have h1' : ¬ (ctx.contradictions.getD 0 > 2) := not_lt.mpr h1
      have h2' : ¬ (ctx.confidence.getD 1 < mkRat 1 2) := not_lt.mpr h2
      simp [should_validate, h1', h2']
  have hst : is_stuck WorkflowState.PLANNING ctx = false := by
    have : ¬ (ctx.iterations_without_progress.getD 0 > 2) := not_lt.mpr hnostuck
    simp [is_stuck, this]
  refine ⟨rfl, ?_⟩
  simp [next_state, hsv, hst, can_complete, next_from_planning, transition_to]

/-- C5 witness: a fresh machine fed the empty context. -/
theorem C5_planning_to_searching_witness :
    Machine.init.current_state = WorkflowState.PLANNING ∧
    (next_state Machine.init Ctx.empty).current_state = WorkflowState.SEARCHING ∧
    (next_state Machine.init Ctx.empty).state_history =
      Machine.init.state_history ++
      [{ from_state := WorkflowState.PLANNING, to_state := WorkflowState.SEARCHING,
         condition := "plan_complete", reason := "plan_complete" }] :=
  C5_planning_to_searching Machine.init Ctx.empty rfl (Or.inl (by decide))
    (by decide)

/-! ### Claim C6 -/

/-- C6 (confirmed): from every non-terminal state, `next_state` with the
empty context (every key absent) never returns COMPLETED; the defaults
route to SEARCHING, ANALYZING or REFINING. -/
theorem C6_empty_context_never_completes (m : Machine)
    (h1 : m.current_state ≠ WorkflowState.COMPLETED)
    (h2 : m.current_state ≠ WorkflowState.FAILED) :
    (next_state m Ctx.empty).current_state ≠ WorkflowState.COMPLETED ∧
    ((next_state m Ctx.empty).current_state = WorkflowState.SEARCHING ∨
     (next_state m Ctx.empty).current_state = WorkflowState.ANALYZING ∨
     (next_state m Ctx.empty).current_state = WorkflowState.REFINING) := by
  rw [next_state_current_eq m Ctx.empty]
  rcases m with ⟨cur, hist⟩
  dsimp only at h1 h2 ⊢
  cases cur
  all_goals first
    | exact absurd rfl h1
    | exact absurd rfl h2
    | decide

/-- C6 witness: the fresh machine in PLANNING. -/
theorem C6_empty_context_never_completes_witness :
    (next_state Machine.init Ctx.empty).current_state ≠ WorkflowState.COMPLETED ∧
    ((next_state Machine.init Ctx.empty).current_state = WorkflowState.SEARCHING ∨
     (next_state Machine.init Ctx.empty).current_state = WorkflowState.ANALYZING ∨
     (next_state Machine.init Ctx.empty).current_state = WorkflowState.REFINING) :=
  C6_empty_context_never_completes Machine.init (by decide) (by decide)

/-! ### Claim C9 -/

/-- Any committed transition re-establishes the invariant. -/
theorem inv_transition_to (m : Machine) (s : WorkflowState) (r : String) :
    Inv (transition_to m s r) := by
  simp [Inv, transition_to, last_to_state, List.getLast?_concat]

/-- `next_state` preserves the invariant. -/
theorem inv_next_state (m : Machine) (ctx : Ctx) (h : Inv m) :
    Inv (next_state m ctx) := by
  rcases next_state_shape m ctx with heq | ⟨t, heq⟩
  · rw [heq]; exact h
  · rw [heq]
    simp [Inv, last_to_state, List.getLast?_concat]

/-- `backtrack` preserves (indeed re-establishes) the invariant. -/
theorem inv_backtrack (m : Machine) (steps : ℕ) (h : Inv m) :
    Inv (backtrack m steps) := by
  unfold backtrack
  split
  · exact h
  · rcases heq : (m.state_history.take (m.state_history.length - steps)).getLast? with
      _ | t <;> simp [Inv, last_to_state, heq]

/-- Every machine reachable by a sequence of operations satisfies the
invariant. -/
theorem inv_run (ops : List Op) : Inv (run ops) := by
  suffices h : ∀ (l : List Op) (m : Machine), Inv m → Inv (l.foldl apply_op m) by
    exact h ops Machine.init rfl
  intro l
  induction l with
  | nil => intro m h; exact h
  | cons op rest ih =>
      intro m h
      cases op with
      | advance ctx => exact ih _ (inv_next_state m ctx h)
      | back steps => exact ih _ (inv_backtrack m steps h)

/-- C9 (confirmed): after any sequence of `next_state`/`backtrack` calls
from a fresh machine, `current_state` equals the destination of the last
recorded transition (PLANNING when the history is empty); a further
`next_state` call either leaves the machine unchanged or appends exactly
one transition whose destination is the new current state; and a further
`backtrack` call keeps the invariant. -/
theorem C9_history_invariant (ops : List Op) :
    Inv (run ops) ∧
    (∀ ctx : Ctx,
      next_state (run ops) ctx = run ops ∨
      ∃ t : StateTransition,
        (next_state (run ops) ctx).state_history = (run ops).state_history ++ [t] ∧
        (next_state (run ops) ctx).current_state = t.to_state) ∧
    (∀ steps : ℕ, Inv (backtrack (run ops) steps)) := by
  refine ⟨inv_run ops, ?_, fun steps => inv_backtrack _ steps (inv_run ops)⟩
  intro ctx
  rcases next_state_shape (run ops) ctx with heq | ⟨t, heq⟩
  · exact Or.inl heq
  · exact Or.inr ⟨t, by rw [heq], by rw [heq]⟩

/-! ### Association-list lemmas for the A/B framework -/

/-- `append_at` unfolded on a cons cell. -/
theorem append_at_cons (v : String) (x : ℚ) (k : String) (b : List ℚ)
    (rest : List (String × List ℚ)) :
    append_at v x ((k, b) :: rest) =
      (if k = v then (k, b ++ [x]) else (k, b)) :: append_at v x rest := rfl

/-- `stats_total` unfolded on a cons cell. -/
theorem stats_total_cons (k : String) (b : List ℚ)
    (rest : List (String × List ℚ)) :
    stats_total ((k, b) :: rest) = b.length + stats_total rest := by
  simp [stats_total]

/-- A key is found by `lookup` exactly when it occurs among the keys. -/
theorem lookup_isSome_iff {β : Type} (v : String) (l : List (String × β)) :
    (l.lookup v).isSome ↔ v ∈ l.map Prod.fst := by
  induction l with
  | nil => simp
  | cons p rest ih =>
      rcases p with ⟨k, b⟩
      by_cases h : v = k
      · subst h
        simp
      · have hb : (v == k) = false := beq_eq_false_iff_ne.mpr h
        simp [List.lookup_cons, hb, ih, h]

/-- `append_at` leaves the key sequence unchanged. -/
theorem append_at_keys (v : String) (x : ℚ) (l : List (String × List ℚ)) :
    (append_at v x l).map Prod.fst = l.map Prod.fst := by
  induction l with
  | nil => rfl
  | cons p rest ih =>
      rcases p with ⟨k, b⟩
      rw [append_at_cons]
      by_cases h : k = v <;> simp [h, ih]

/-- Looking up the extended key after `append_at`. -/
theorem lookup_append_at_self (v : String) (x : ℚ) (l : List (String × List ℚ)) :
    (append_at v x l).lookup v = (l.lookup v).map (fun b => b ++ [x]) := by
  induction l with
  | nil => rfl
  | cons p rest ih =>
      rcases p with ⟨k, b⟩
      rw [append_at_cons]
      by_cases h : v = k
      · subst h
        rw [if_pos rfl]
        simp
      · have h' : ¬ k = v := fun hh => h hh.symm
        have hb : (v == k) = false := beq_eq_false_iff_ne.mpr h
        rw [if_neg h']
        simp [List.lookup_cons, hb, ih]

/-- Looking up any other key after `append_at`. -/
theorem lookup_append_at_ne (v w : String) (x : ℚ) (l : List (String × List ℚ))
    (hw : w ≠ v) :
    (append_at v x l).lookup w = l.lookup w := by
  induction l with
  | nil => rfl
  | cons p rest ih =>
      rcases p with ⟨k, b⟩
      rw [append_at_cons]
      by_cases hk : k = v
      · subst hk
        have hb : (w == k) = false := beq_eq_false_iff_ne.mpr hw
        rw [if_pos rfl]
        simp [List.lookup_cons, hb, ih]
      · rw [if_neg hk]
        by_cases hwk : w = k
        · subst hwk
          simp
        · have hb : (w == k) = false := beq_eq_false_iff_ne.mpr hwk
          simp [List.lookup_cons, hb, ih]

/-- `append_at` with an absent key changes nothing. -/
theorem append_at_of_not_mem (v : String) (x : ℚ) (l : List (String × List ℚ))
    (h : v ∉ l.map Prod.fst) : append_at v x l = l := by
  induction l with
  | nil => rfl
  | cons p rest ih =>
      rcases p with ⟨k, b⟩
      simp only [List.map_cons, List.mem_cons, not_or] at h
      have hk : ¬ k = v := fun hh => h.1 hh.symm
      rw [append_at_cons, if_neg hk, ih h.2]

/-- `append_at` at a present key (keys duplicate-free) stores exactly one
more value. -/
theorem stats_total_append_at (v : String) (x : ℚ) (l : List (String × List ℚ))
    (hnd : (l.map Prod.fst).Nodup) (hv : v ∈ l.map Prod.fst) :
    stats_total (append_at v x l) = stats_total l + 1 := by
  induction l with
  | nil => simp at hv
  | cons p rest ih =>
      rcases p with ⟨k, b⟩
      simp only [List.map_cons, List.nodup_cons] at hnd
      simp only [List.map_cons, List.mem_cons] at hv
      rw [append_at_cons]
      rcases hv with h | h
      · subst h
        rw [if_pos rfl, append_at_of_not_mem v x rest hnd.1,
          stats_total_cons, stats_total_cons]
        simp
        omega
      · have hk : ¬ k = v := by
          intro hh
          exact hnd.1 (hh ▸ h)
        rw [if_neg hk, stats_total_cons, stats_total_cons, ih hnd.2 h]
        omega

/-- Looking up a member of a duplicate-free association list returns that
member's value. -/
theorem lookup_of_mem_nodup {β : Type} (l : List (String × β)) (p : String × β)
    (hnd : (l.map Prod.fst).Nodup) (hp : p ∈ l) : l.lookup p.1 = some p.2 := by
  induction l with
  | nil => simp at hp
  | cons q rest ih =>
      rcases q with ⟨k, b⟩
      simp only [List.map_cons, List.nodup_cons] at hnd
      rcases List.mem_cons.mp hp with h | h
      · subst h
        simp
      · have hpk : p.1 ∈ rest.map Prod.fst := List.mem_map_of_mem Prod.fst h
        have hne : ¬ p.1 = k := fun hh => hnd.1 (hh ▸ hpk)
        have hb : (p.1 == k) = false := beq_eq_false_iff_ne.mpr hne
        simp [List.lookup_cons, hb]
        exact ih hnd.2 h

/-- Invariants of reachable tests: the stats keys are exactly the declared
variants (duplicate-free), and each recorded result is counted once in the
stats. -/
theorem reachable_inv (t : ABTest) (h : Reachable t) :
    t.variant_stats.map Prod.fst = t.variants ∧
    t.variants.Nodup ∧
    t.results.length = stats_total t.variant_stats := by
  induction h with
  | make name metric variants hnd =>
      refine ⟨?_, hnd, ?_⟩
      · simp [ABTest.make, List.map_map, Function.comp_def]
      · simp only [ABTest.make, stats_total, List.map_map, Function.comp_def,
          List.length_nil, List.length_nil]
        symm
        apply List.sum_eq_zero
        intro b hb
        simp at hb
        omega
  | step t v x ht hv ih =>
      obtain ⟨hkeys, hnd, hlen⟩ := ih
      have hmem : v ∈ t.variant_stats.map Prod.fst := hkeys ▸ hv
      have hnk : (t.variant_stats.map Prod.fst).Nodup := by rw [hkeys]; exact hnd
      have hlk : (t.variant_stats.lookup v).isSome :=
        (lookup_isSome_iff v _).mpr hmem
      unfold record_result
      simp only [hlk, if_true]
      refine ⟨?_, hnd, ?_⟩
      · simpa [append_at_keys] using hkeys
      · simp [stats_total_append_at v x _ hnk hmem, hlen]

/-- The keys of the stats dictionary form a sublist of the stats-store
keys (variants without data are skipped). -/
theorem compute_stats_keys_sublist (vs : List (String × List ℚ)) :
    ((compute_stats vs).map Prod.fst).Sublist (vs.map Prod.fst) := by
  induction vs with
  | nil => simp [compute_stats]
  | cons p rest ih =>
      rcases p with ⟨k, b⟩
      by_cases h : b.isEmpty
      · simp only [compute_stats, List.filterMap_cons, h, if_pos]
        exact ih.cons _
      · simp only [compute_stats, List.filterMap_cons, h, if_neg, Bool.false_eq_true,
          not_false_iff, List.map_cons]
        exact ih.cons₂ _

/-- When at least one value is stored, the stats dictionary is nonempty. -/
theorem compute_stats_ne_nil (vs : List (String × List ℚ))
    (h : 0 < stats_total vs) : compute_stats vs ≠ [] := by
  induction vs with
  | nil => simp [stats_total] at h
  | cons p rest ih =>
      rcases p with ⟨k, b⟩
      by_cases hb : b.isEmpty
      · have hb' : b = [] := by simpa using hb
        rw [stats_total_cons, hb'] at h
        subst hb'
        simp only [compute_stats, List.filterMap_cons, List.isEmpty_nil, if_pos]
        exact ih (by simpa using h)
      · have hb' : ¬ b = [] := by simpa using hb
        simp [compute_stats, List.filterMap_cons, hb']

/-- The fold inside `best_variant` returns one of its inputs. -/
theorem fold_best_mem (xs : List (String × VariantStats)) (x : String × VariantStats) :
    xs.foldl (fun best y => if y.2.mean > best.2.mean then y else best) x ∈ x :: xs := by
  induction xs generalizing x with
  | nil => simp
  | cons y ys ih =>
      have h := ih (if y.2.mean > x.2.mean then y else x)
      simp only [List.foldl_cons]
      rcases List.mem_cons.mp h with h1 | h1
      · rw [h1]
        split <;> simp
      · simp [h1]

/-- The fold inside `best_variant` returns an entry whose mean dominates
the start entry and every list entry. -/
theorem fold_best_max (xs : List (String × VariantStats)) (x : String × VariantStats) :
    x.2.mean ≤ (xs.foldl (fun best y => if y.2.mean > best.2.mean then y else best) x).2.mean ∧
    ∀ y ∈ xs,
      y.2.mean ≤ (xs.foldl (fun best y => if y.2.mean > best.2.mean then y else best) x).2.mean := by
  induction xs generalizing x with
  | nil => exact ⟨le_refl _, by simp⟩
  | cons y ys ih =>
      obtain ⟨h1, h2⟩ := ih (if y.2.mean > x.2.mean then y else x)
      simp only [List.foldl_cons]
      constructor
      · refine le_trans ?_ h1
        split <;> [exact le_of_lt (by assumption); exact le_refl _]
      · intro z hz
        rcases List.mem_cons.mp hz with h | h
        · subst h
          refine le_trans ?_ h1
          split <;> [exact le_refl _; exact le_of_not_lt (by assumption)]
        · exact h2 z h

/-- `best_variant` returns a member of the stats dictionary. -/
theorem best_variant_mem (l : List (String × VariantStats)) (b : String × VariantStats)
    (h : best_variant l = some b) : b ∈ l := by
  cases l with
  | nil => simp [best_variant] at h
  | cons x xs =>
      simp only [best_variant, Option.some.injEq] at h
      rw [← h]
      exact fold_best_mem xs x

/-- `best_variant` returns an entry with the maximal mean. -/
theorem best_variant_max (l : List (String × VariantStats)) (b : String × VariantStats)
    (h : best_variant l = some b) : ∀ p ∈ l, p.2.mean ≤ b.2.mean := by
  cases l with
  | nil => simp [best_variant] at h
  | cons x xs =>
      simp only [best_variant, Option.some.injEq] at h
      rw [← h]
      intro p hp
      obtain ⟨h1, h2⟩ := fold_best_max xs x
      rcases List.mem_cons.mp hp with hh | hh
      · exact hh ▸ h1
      · exact h2 p hh

/-! ### Claim C7 -/

/-- C7 (confirmed): for every reachable test, `get_winner` returns the
insufficient-data answer (`winner: None` with an explanatory message)
exactly when the number of recorded results is below `min_samples`, and
whenever `min_samples ≥ 1` results are recorded it declares a winner. -/
theorem C7_insufficient_data_guard (t : ABTest) (ht : Reachable t)
    (min_samples : ℕ) :
    ((∃ msg, get_winner t min_samples = .insufficient msg) ↔
      t.results.length < min_samples) ∧
    (1 ≤ min_samples → min_samples ≤ t.results.length →
      ∃ v mean conf, get_winner t min_samples = .declared v mean conf) := by
  obtain ⟨hkeys, hnd, hlen⟩ := reachable_inv t ht
  constructor
  · constructor
    · rintro ⟨msg, hmsg⟩
      by_contra hlt
      simp only [get_winner, if_neg hlt] at hmsg
      rcases hbv : best_variant (compute_stats t.variant_stats) with _ | best <;>
        simp only [hbv] at hmsg
      · simp at hmsg
      · rcases hcc : calculate_confidence best.1 (compute_stats t.variant_stats)
          with _ | c <;> simp only [hcc] at hmsg <;> simp at hmsg
    · intro hlt
      exact ⟨"Insufficient data (need " ++ toString min_samples ++
        " samples, have " ++ toString t.results.length ++ ")",
        by simp only [get_winner, if_pos hlt]⟩
  · intro h1 h2
    have hnlt : ¬ t.results.length < min_samples := by omega
    have hpos : 0 < stats_total t.variant_stats := by omega
    obtain ⟨best, hbv⟩ :
        ∃ b, best_variant (compute_stats t.variant_stats) = some b := by
      rcases hcs : compute_stats t.variant_stats with _ | ⟨x, xs⟩
      · exact absurd hcs (compute_stats_ne_nil _ hpos)
      · exact ⟨_, rfl⟩
    have hmem := best_variant_mem _ _ hbv
    have hlk : ((compute_stats t.variant_stats).lookup best.1).isSome :=
      (lookup_isSome_iff best.1 _).mpr (List.mem_map_of_mem Prod.fst hmem)
    obtain ⟨ws, hws⟩ := Option.isSome_iff_exists.mp hlk
    have hcc : (calculate_confidence best.1 (compute_stats t.variant_stats)).isSome := by
      simp only [calculate_confidence, hws, Option.map_some', Option.isSome_some]
    obtain ⟨c, hc⟩ := Option.isSome_iff_exists.mp hcc
    exact ⟨best.1, best.2.mean, c, by simp only [get_winner, if_neg hnlt, hbv, hc]⟩

/-- C7 witness: one recorded result with `min_samples = 1` yields a
declared winner (and with 1 result below `min_samples = 30`, the default,
the same theorem's first part gives the insufficient answer). -/
theorem C7_insufficient_data_guard_witness :
    ∃ v mean conf, get_winner single_test 1 = .declared v mean conf :=
  (C7_insufficient_data_guard single_test
      (Reachable.step _ "A" 1
        (Reachable.make "t" "confidence" ["A"] (by decide)) (by decide)) 1).2
    (le_refl 1) (by decide)

/-! ### Claim C8 -/

/-- Skipping the winner in `_calculate_confidence` is a filter followed by
the margin map. -/
theorem filterMap_skip_eq (v : String) (g : (String × VariantStats) → ℚ)
    (l : List (String × VariantStats)) :
    l.filterMap (fun p => if p.1 = v then none else some (g p)) =
      (l.filter (fun p => p.1 ≠ v)).map g := by
  induction l with
  | nil => rfl
  | cons p rest ih =>
      by_cases h : p.1 = v <;>
        simp [List.filterMap_cons, List.filter_cons, h, ih]

/-- Evaluation of `get_winner` on the two-variant sample test: "A" (mean 1)
beats "B" (mean 0.8) and the confidence comes out as
min(0.95, 0.5 + 0.2/max(1, 0.01)) = 0.7. -/
theorem get_winner_sample_eval :
    get_winner sample_test 2 = .declared "A" 1 (mkRat 7 10) := by
  have hstats : sample_test.variant_stats = [("A", [(1:ℚ)]), ("B", [mkRat 4 5])] := by
    decide
  have hres : ¬ sample_test.results.length < 2 := by decide
  have hcs : compute_stats sample_test.variant_stats =
      [("A", ⟨1, 1⟩), ("B", ⟨mkRat 4 5, 1⟩)] := by
    rw [hstats]
    simp only [compute_stats, List.filterMap_cons, List.filterMap_nil,
      List.isEmpty_cons, if_neg, Bool.false_eq_true, not_false_iff]
    norm_num [list_mean, Rat.mkRat_eq_div]
  have hbv : best_variant (compute_stats sample_test.variant_stats) =
      some ("A", ⟨1, 1⟩) := by
    rw [hcs]
    simp only [best_variant, List.foldl_cons, List.foldl_nil]
    rw [if_neg]
    norm_num [Rat.mkRat_eq_div]
  have hcc : calculate_confidence "A" (compute_stats sample_test.variant_stats) =
      some (mkRat 7 10) := by
    rw [hcs]
    have hBA : (("B":String) = "A") = False := eq_false (by decide)
    have hAA : (("A":String) = "A") = True := eq_true rfl
    simp only [calculate_confidence, List.lookup_cons_self, Option.map_some',
      List.filterMap_cons, List.filterMap_nil, hBA, hAA, if_true, if_false,
      Option.some.injEq, List.isEmpty_cons]
    norm_num [max_def, min_def, Rat.mkRat_eq_div]
  simp only [get_winner, if_neg hres, hbv, hcc]

/-- C8 (counterexample): on the sample test `get_winner` reports winner "A"
with confidence 0.7, while the claim formula (the average margin clamped
into [0.5, 0.95]) gives clamp(0.2) = 0.5; the two differ, so the claim as
stated is false. -/
theorem C8_counterexample :
    get_winner sample_test 2 = .declared "A" 1 (mkRat 7 10) ∧
    claimed_confidence 1 [mkRat 4 5] = mkRat 1 2 ∧
    (mkRat 7 10 : ℚ) ≠ mkRat 1 2 := by
  refine ⟨get_winner_sample_eval, ?_, by norm_num [Rat.mkRat_eq_div]⟩
  simp only [claimed_confidence, List.isEmpty_cons, Bool.false_eq_true, if_neg,
    not_false_iff, List.map_cons, List.map_nil]
  norm_num [Rat.mkRat_eq_div]

/-- C8 (amended, confirmed): whenever `get_winner` on a reachable test
declares a winner, the reported confidence equals 0.5 plus the average,
over all non-winning variants with at least one recorded value, of
(winner_mean - other_mean) / max(winner_mean, 0.01), capped above at 0.95
(0.5 when the winner is the only variant with data); since the winning
mean is maximal, every margin is nonnegative and the confidence always
lies in [0.5, 0.95]. -/
theorem C8_winner_confidence (t : ABTest) (ht : Reachable t) (min_samples : ℕ)
    (v : String) (mean conf : ℚ)
    (h : get_winner t min_samples = .declared v mean conf) :
    (conf =
      (if (((compute_stats t.variant_stats).filter (fun p => p.1 ≠ v)).map
            (fun p => (mean - p.2.mean) / max mean ((1:ℚ)/100))).isEmpty
       then (1:ℚ)/2
       else min ((19:ℚ)/20)
         ((1:ℚ)/2 +
          (((compute_stats t.variant_stats).filter (fun p => p.1 ≠ v)).map
            (fun p => (mean - p.2.mean) / max mean ((1:ℚ)/100))).sum /
          (((compute_stats t.variant_stats).filter (fun p => p.1 ≠ v)).map
            (fun p => (mean - p.2.mean) / max mean ((1:ℚ)/100))).length))) ∧
    (1:ℚ)/2 ≤ conf ∧ conf ≤ (19:ℚ)/20 := by
  obtain ⟨hkeys, hnd, hlen⟩ := reachable_inv t ht
  by_cases hlt : t.results.length < min_samples
  · simp only [get_winner, if_pos hlt] at h
    exact absurd h (by simp)
  · simp only [get_winner, if_neg hlt] at h
    rcases hbv : best_variant (compute_stats t.variant_stats) with _ | best <;>
      simp only [hbv] at h
    · exact absurd h (by simp)
    rcases hcc : calculate_confidence best.1 (compute_stats t.variant_stats)
        with _ | c <;> simp only [hcc] at h
    · exact absurd h (by simp)
    rw [WinnerResult.declared.injEq] at h
    obtain ⟨hv, hmean, hconf⟩ := h
    subst hv
    subst hmean
    subst hconf
    have hndk : ((compute_stats t.variant_stats).map Prod.fst).Nodup :=
      (compute_stats_keys_sublist t.variant_stats).nodup (hkeys ▸ hnd)
    have hmem := best_variant_mem _ _ hbv
    have hlk : (compute_stats t.variant_stats).lookup best.1 = some best.2 :=
      lookup_of_mem_nodup _ _ hndk hmem
    simp only [calculate_confidence, hlk, Option.map_some', Option.some.injEq,
      filterMap_skip_eq] at hcc
    set margins := ((compute_stats t.variant_stats).filter
        (fun p => p.1 ≠ best.1)).map
        (fun p => (best.2.mean - p.2.mean) / max best.2.mean ((1:ℚ)/100)) with hmdef
    refine ⟨hcc.symm, ?_⟩
    have hnonneg : ∀ q ∈ margins, 0 ≤ q := by
      intro q hq
      obtain ⟨p, hp, hpq⟩ := List.mem_map.mp hq
      have hps : p ∈ compute_stats t.variant_stats := List.mem_of_mem_filter hp
      have hle : p.2.mean ≤ best.2.mean := best_variant_max _ _ hbv p hps
      have hden : (0:ℚ) < max best.2.mean ((1:ℚ)/100) :=
        lt_of_lt_of_le (by norm_num) (le_max_right _ _)
      rw [← hpq]
      exact div_nonneg (sub_nonneg.mpr hle) (le_of_lt hden)
    rw [← hcc]
    by_cases he : margins.isEmpty
    · rw [if_pos he]
      norm_num
    · rw [if_neg he]
      have hsum : (0:ℚ) ≤ margins.sum := List.sum_nonneg hnonneg
      have havg : (0:ℚ) ≤ margins.sum / (margins.length : ℚ) :=
        div_nonneg hsum (Nat.cast_nonneg _)
      constructor
      · refine le_min (by norm_num) ?_
        linarith
      · exact min_le_left _ _

/-- C8 witness: the amended formula and bounds instantiated on the sample
test, where the winner is "A" with mean 1 and confidence 0.7. -/
theorem C8_winner_confidence_witness :
    (1:ℚ)/2 ≤ mkRat 7 10 ∧ (mkRat 7 10 : ℚ) ≤ (19:ℚ)/20 :=
  (C8_winner_confidence sample_test
      (Reachable.step _ "B" (mkRat 4 5)
        (Reachable.step _ "A" 1
          (Reachable.make "t" "confidence" ["A", "B"] (by decide)) (by decide))
        (by decide))
      2 "A" 1 (mkRat 7 10) get_winner_sample_eval).2

/-! ### Claim C10 -/

/-- `record_result` unfolded: the result list is extended first, and the
stats update happens only when the variant is a registered key. -/
theorem record_result_eq (t : ABTest) (v : String) (x : ℚ) :
    record_result t v x =
      if (t.variant_stats.lookup v).isSome then
        ({ t with
            results := t.results ++
              [{ variant := if v = "A" then .A else if v = "B" then .B else .CONTROL,
                 metric_name := t.metric, metric_value := x }],
            variant_stats := append_at v x t.variant_stats }, false)
      else
        ({ t with
            results := t.results ++
              [{ variant := if v = "A" then .A else if v = "B" then .B else .CONTROL,
                 metric_name := t.metric, metric_value := x }] }, true) := rfl

/-- C10 (confirmed): `record_result` always appends exactly one
`TestResult` to `results` first; with an unregistered variant name the
subsequent `variant_stats[variant]` lookup raises `KeyError`, so the error
state keeps the grown result list while `variant_stats` is unchanged (the
two stores are not updated atomically); with a registered variant exactly
one value is appended to that variant's stats and every other entry and
all prior entries are untouched. -/
theorem C10_record_result_atomicity (t : ABTest) (ht : Reachable t)
    (v : String) (x : ℚ) :
    (record_result t v x).1.results = t.results ++
      [{ variant := if v = "A" then .A else if v = "B" then .B else .CONTROL,
         metric_name := t.metric, metric_value := x }] ∧
    (v ∉ t.variants →
      (record_result t v x).2 = true ∧
      (record_result t v x).1.variant_stats = t.variant_stats) ∧
    (v ∈ t.variants →
      (record_result t v x).2 = false ∧
      (record_result t v x).1.variant_stats.map Prod.fst =
        t.variant_stats.map Prod.fst ∧
      stats_total (record_result t v x).1.variant_stats =
        stats_total t.variant_stats + 1 ∧
      (record_result t v x).1.variant_stats.lookup v =
        some (((t.variant_stats.lookup v).getD []) ++ [x]) ∧
      (∀ w, w ≠ v → (record_result t v x).1.variant_stats.lookup w =
        t.variant_stats.lookup w)) := by
  obtain ⟨hkeys, hnd, hlen⟩ := reachable_inv t ht
  have hndk : (t.variant_stats.map Prod.fst).Nodup := by
    rw [hkeys]; exact hnd
  refine ⟨?_, ?_, ?_⟩
  · rw [record_result_eq]
    split <;> rfl
  · intro hv
    have hmem : v ∉ t.variant_stats.map Prod.fst := by
      rw [hkeys]; exact hv
    have hlk : ¬ ((t.variant_stats.lookup v).isSome = true) := by
      rw [lookup_isSome_iff]
      exact hmem
    rw [record_result_eq, if_neg hlk]
    exact ⟨rfl, rfl⟩
  · intro hv
    have hmem : v ∈ t.variant_stats.map Prod.fst := by
      rw [hkeys]; exact hv
    have hlk : (t.variant_stats.lookup v).isSome = true := by
      rw [lookup_isSome_iff]
      exact hmem
    obtain ⟨b, hb⟩ := Option.isSome_iff_exists.mp hlk
    rw [record_result_eq, if_pos hlk]
    refine ⟨rfl, append_at_keys v x t.variant_stats,
      stats_total_append_at v x t.variant_stats hndk hmem, ?_, ?_⟩
    · rw [lookup_append_at_self, hb]
      simp
    · intro w hw
      exact lookup_append_at_ne v w x t.variant_stats hw

/-- C10 witness: recording under the unregistered name "B" on the
one-variant sample test flags the `KeyError` and leaves the stats store
unchanged (while, by the same theorem, the result list has grown). -/
theorem C10_record_result_atomicity_witness :
    (record_result single_test "B" (mkRat 1 2)).2 = true ∧
    (record_result single_test "B" (mkRat 1 2)).1.variant_stats =
      single_test.variant_stats :=
  (C10_record_result_atomicity single_test
      (Reachable.step _ "A" 1
        (Reachable.make "t" "confidence" ["A"] (by decide)) (by decide))
      "B" (mkRat 1 2)).2.1 (by decide)

end DeepSearch
